import Mathlib

/-!
Shallow embedding of the CSV contact manager core (`main.py`):
the row validator and CSV parsing pipeline, the LinkedIn-URL
normalization, the in-memory session store, the upload endpoint, the
review endpoint, and the two enrollment-gateway adapters.

Python strings are modelled as Lean `String`s with the relevant string
operations re-implemented structurally on `List Char` so that every
definition is executable and kernel-reducible.  Cell values read from a
pandas data frame are modelled by `PyVal` (a string or NaN), matching
how `row.get` behaves for absent columns and empty cells.
-/

namespace CsvAgent

/-- Whitespace characters stripped by Python's `str.strip()`
(ASCII fragment, which is all the pipeline relies on). -/
def isWs (c : Char) : Bool :=
  c == ' ' || c == '\t' || c == '\n' || c == '\r' || c == '\x0b' || c == '\x0c'

/-- Drop leading whitespace, as the left half of `str.strip()`. -/
def ldropWs (cs : List Char) : List Char := cs.dropWhile isWs

/-- Drop trailing whitespace, as the right half of `str.strip()`. -/
def rdropWs (cs : List Char) : List Char := (cs.reverse.dropWhile isWs).reverse

/-- Python `str.strip()` on character lists. -/
def stripL (cs : List Char) : List Char := rdropWs (ldropWs cs)

/-- Python `str.strip()` on strings. -/
def stripS (s : String) : String := String.mk (stripL s.toList)

/-- `hasPref pat l` is true iff `pat` is an initial segment of `l`
(Python `str.startswith`). -/
def hasPref : List Char → List Char → Bool
  | [], _ => true
  | _ :: _, [] => false
  | a :: as, b :: bs => a == b && hasPref as bs

/-- `hasSubL pat l` is true iff `pat` occurs contiguously in `l`
(Python's `in` operator on strings). -/
def hasSubL (pat : List Char) : List Char → Bool
  | [] => pat.isEmpty
  | c :: cs => hasPref pat (c :: cs) || hasSubL pat cs

/-- Python `str.lower()` (ASCII fragment). -/
def lowerS (s : String) : String := String.mk (s.toList.map Char.toLower)

/-- Python `str.endswith` via reversed prefix test. -/
def strEndsWith (s suf : String) : Bool := hasPref suf.toList.reverse s.toList.reverse

/-- A value read from a pandas row: either an actual string cell or NaN
(pandas' representation of an empty/missing cell). -/
inductive PyVal where
  | str (s : String)
  | nan
deriving DecidableEq

/-- Python `str(v)` for the two cell shapes (`str(nan) = "nan"`). -/
def pyStr : PyVal → String
  | PyVal.str s => s
  | PyVal.nan => "nan"

/-- Python truthiness of a cell value: the empty string is falsy,
NaN (a float) is truthy. -/
def pyTruthy : PyVal → Bool
  | PyVal.str s => s ≠ ""
  | PyVal.nan => true

/-- `pd.isna` on a cell value. -/
def pyIsna : PyVal → Bool
  | PyVal.str _ => false
  | PyVal.nan => true

/-- A raw spreadsheet row: association list from column name to cell
value; a column absent from the list models a column absent from the
data frame. -/
abbrev Row := List (String × PyVal)

/-- `row.get(col)` with no default: `none` when the column is absent. -/
def rowGet? (r : Row) (col : String) : Option PyVal :=
  (r.find? (fun p => p.1 == col)).map (fun p => p.2)

/-- `row.get(col, default)` with a string default. -/
def rowGetD (r : Row) (col : String) (d : String) : PyVal :=
  (rowGet? r col).getD (PyVal.str d)

/-! ## Validators (`validate_email`, `validate_linkedin_url`, `clean_linkedin_url`) -/

/-- Characters allowed by the regex in the local part:
`[a-zA-Z0-9._%+-]`. -/
def isLocalChar (c : Char) : Bool :=
  c.isAlpha || c.isDigit || c == '.' || c == '_' || c == '%' || c == '+' || c == '-'

/-- Characters allowed by the regex in the domain before the final dot:
`[a-zA-Z0-9.-]`. -/
def isDomChar (c : Char) : Bool :=
  c.isAlpha || c.isDigit || c == '.' || c == '-'

/-- The trailing `[a-zA-Z]{2,}$` of the email regex. -/
def tldOk (t : List Char) : Bool := 2 ≤ t.length && t.all Char.isAlpha

/-- Scans the part after `@` for some dot splitting an (possibly
continuing) domain from a valid TLD; the backtracking of
`[a-zA-Z0-9.-]+\.[a-zA-Z]{2,}$` restricted to the tail after the first
domain character. -/
def tailDom : List Char → Bool
  | [] => false
  | c :: cs => (c == '.' && tldOk cs) || (isDomChar c && tailDom cs)

/-- Matches `[a-zA-Z0-9.-]+\.[a-zA-Z]{2,}$` against the whole list. -/
def domOk : List Char → Bool
  | [] => false
  | c :: cs => isDomChar c && tailDom cs

/-- Matches the full email regex `^[a-zA-Z0-9._%+-]+@[a-zA-Z0-9.-]+\.[a-zA-Z]{2,}$`
against the whole character list. -/
def validateEmailL (cs : List Char) : Bool :=
  match cs.dropWhile (fun c => c ≠ '@') with
  | '@' :: rest =>
    let l := cs.takeWhile (fun c => c ≠ '@')
    !l.isEmpty && l.all isLocalChar && domOk rest
  | _ => false

/-- `validate_email` from `main.py`: `re.match(pattern, email)` where the
pattern is anchored with `^...$`.  Python's `$` also matches just before
a single trailing newline, hence the second disjunct. -/
def validate_email (s : String) : Bool :=
  validateEmailL s.toList ||
  (match s.toList.getLast? with
   | some c => c == '\n' && validateEmailL s.toList.dropLast
   | none => false)

/-- `validate_linkedin_url` from `main.py`: false on the empty string,
otherwise `'linkedin.com' in url.lower()` after stripping. -/
def validate_linkedin_url (s : String) : Bool :=
  if s = "" then false
  else hasSubL "linkedin.com".toList (lowerS (stripS s)).toList

/-- The characters of `"http"`, for the `startswith('http')` test. -/
def httpChars : List Char := ['h', 't', 't', 'p']

/-- The characters of `"https://"`, the prefix prepended by
`clean_linkedin_url`. -/
def httpsChars : List Char := ['h', 't', 't', 'p', 's', ':', '/', '/']

/-- The string-rewriting core of `clean_linkedin_url`: strip, drop
everything from the first `?` on, prepend `https://` unless the result
already starts with `http`. -/
def cleanL (cs : List Char) : List Char :=
  let u := (stripL cs).takeWhile (fun c => c ≠ '?')
  if hasPref httpChars u then u else httpsChars ++ u

/-- `clean_linkedin_url` from `main.py`, including the
`if not url or pd.isna(url): return ""` guard on the raw cell value. -/
def clean_linkedin_url (v : PyVal) : String :=
  if pyTruthy v = false then ""
  else if pyIsna v then ""
  else String.mk (cleanL (pyStr v).toList)

/-- `clean_linkedin_url` applied to an actual string field. -/
def cleanPy (s : String) : String := clean_linkedin_url (PyVal.str s)

/-! ## Contacts and CSV parsing -/

/-- The `Contact` pydantic model. -/
structure Contact where
  name : String
  email : String
  linkedin_url : String
  first_name : Option String := none
  last_name : Option String := none
deriving DecidableEq

/-- The optional-field extraction in `parse_csv`:
`str(row.get(col, '')).strip() if pd.notna(row.get(col)) else ""`.
`row.get(col)` without default is `None` for an absent column, and
`pd.notna` is false on both `None` and NaN. -/
def optField (r : Row) (col : String) : String :=
  match rowGet? r col with
  | some (PyVal.str s) => stripS s
  | some PyVal.nan => ""
  | none => ""

/-- The body of the row loop in `parse_csv`: extract and strip the
required fields, skip the row when one is missing or invalid, otherwise
build the `Contact`. -/
def classifyRow (r : Row) : Option Contact :=
  let name := stripS (pyStr (rowGetD r "name" ""))
  let email := stripS (pyStr (rowGetD r "email" ""))
  let lk := clean_linkedin_url (rowGetD r "What is your LinkedIn profile?" "")
  if name = "" || email = "" || lk = "" then none
  else if validate_email email = false then none
  else if validate_linkedin_url lk = false then none
  else
    let fn := optField r "first_name"
    let ln := optField r "last_name"
    some { name := name, email := email, linkedin_url := lk,
           first_name := if fn = "" then none else some fn,
           last_name := if ln = "" then none else some ln }

/-- An HTTP error raised as `HTTPException(status, detail)`. -/
structure HErr where
  status : Nat
  detail : String
deriving DecidableEq

/-- `str(e)` for a raised `HTTPException`, as used by the blanket
`except` clause of `upload_csv`. -/
def strOfHErr (e : HErr) : String := toString e.status ++ ": " ++ e.detail

/-- `parse_csv` from `main.py`.  The pandas parse itself is modelled as
an `Except Unit (List Row)` input: `Except.error` is `pd.read_csv`
raising, which the function's own `try`/`except` converts into an
`HTTPException(400, ...)`. -/
def parse_csv (input : Except Unit (List Row)) : Except HErr (List Contact) :=
  match input with
  | Except.error _ => Except.error ⟨400, "Error parsing CSV"⟩
  | Except.ok rows => Except.ok (rows.filterMap classifyRow)

/-! ## Session store and the upload endpoint -/

/-- `active_reviews`: the process-wide map from session id to the
session's contact list, modelled as an association list. -/
abbrev Store := List (String × List Contact)

/-- `session_id in active_reviews` / `active_reviews[session_id]`. -/
def lookupStore (store : Store) (sid : String) : Option (List Contact) :=
  (store.find? (fun p => p.1 == sid)).map (fun p => p.2)

/-- The success payload of `POST /upload-csv`. -/
structure UploadOk where
  session_id : String
  total_contacts : Nat
  contacts : List Contact
deriving DecidableEq

/-- The HTTP outcome of `POST /upload-csv`. -/
inductive UploadResp where
  | ok (r : UploadOk)
  | err (status : Nat) (detail : String)
deriving DecidableEq

/-- The status code of an upload response, when it is an error. -/
def uploadErrStatus : UploadResp → Option Nat
  | UploadResp.ok _ => none
  | UploadResp.err s _ => some s

/-- `upload_csv` from `main.py`.  The freshly generated uuid is passed
in as a parameter.  Everything from the temp-file write to the session
creation sits inside `try: ... except Exception as e: raise
HTTPException(500, str(e))`; since FastAPI's `HTTPException` derives
from `Exception`, the two `HTTPException(400, ...)` raises inside the
`try` block (parse failure and the empty-contacts check) are caught by
that blanket `except` and re-raised with status 500.  Only the filename
extension check sits outside the `try`. -/
def upload_csv (store : Store) (filename : String) (input : Except Unit (List Row))
    (uuid : String) : Store × UploadResp :=
  if strEndsWith filename ".csv" = false then
    (store, UploadResp.err 400 "File must be a CSV")
  else
    match parse_csv input with
    | Except.error e => (store, UploadResp.err 500 (strOfHErr e))
    | Except.ok contacts =>
      if contacts.isEmpty then
        (store, UploadResp.err 500 (strOfHErr ⟨400, "No valid contacts found in CSV"⟩))
      else
        ((uuid, contacts) :: store,
         UploadResp.ok ⟨uuid, contacts.length, contacts.take 5⟩)

/-! ## Enrollment gateway adapters -/

/-- The environment-derived configuration read at module load. -/
structure Config where
  mailchimp_api_key : Option String
  mailchimp_list_id : Option String
  mailchimp_server_prefix : Option String
  pipedrive_api_key : Option String
  pipedrive_domain : Option String

/-- Python truthiness of an `os.getenv` result, as consumed by
`all([...])`: unset (`None`) and the empty string are falsy. -/
def optTruthy : Option String → Bool
  | none => false
  | some s => s ≠ ""

/-- The `all([MAILCHIMP_API_KEY, MAILCHIMP_LIST_ID, MAILCHIMP_SERVER_PREFIX])`
guard of `add_to_mailchimp`. -/
def mailchimpConfigured (c : Config) : Bool :=
  optTruthy c.mailchimp_api_key && optTruthy c.mailchimp_list_id &&
    optTruthy c.mailchimp_server_prefix

/-- The `all([PIPEDRIVE_API_KEY, PIPEDRIVE_DOMAIN])` guard of
`add_to_pipedrive`. -/
def pipedriveConfigured (c : Config) : Bool :=
  optTruthy c.pipedrive_api_key && optTruthy c.pipedrive_domain

/-- Outcome of one outbound `requests.post`: an HTTP response with a
status code (and a flag for a body on which `.json()` access raises), or
the call itself raising. -/
inductive NetResult where
  | resp (status : Nat) (bodyBad : Bool)
  | exn
deriving DecidableEq

/-- Helper for `splitWs`: accumulates the current token (reversed). -/
def splitWsAux : List Char → List Char → List (List Char)
  | [], cur => if cur.isEmpty then [] else [cur.reverse]
  | c :: cs, cur =>
    if isWs c then
      if cur.isEmpty then splitWsAux cs [] else cur.reverse :: splitWsAux cs []
    else splitWsAux cs (c :: cur)

/-- Python `str.split()` with no argument: split on whitespace runs,
dropping empty tokens. -/
def pySplit (s : String) : List String :=
  (splitWsAux s.toList []).map String.mk

/-- Python `" ".join(l)`. -/
def joinSp (l : List String) : String :=
  String.mk (List.intercalate [' '] (l.map String.toList))

/-- The Mailchimp request body built by `add_to_mailchimp`: email,
subscription status (constant `"subscribed"`) and the three merge
fields. -/
structure MCReq where
  email_address : String
  fname : String
  lname : String
  linkedin : String
deriving DecidableEq

/-- The `FNAME` merge field: `contact.first_name or
contact.name.split()[0]`.  `none` models the `IndexError` raised by
`[0]` when the name has no tokens and `first_name` is falsy. -/
def mcFname (c : Contact) : Option String :=
  match c.first_name with
  | some s => if s = "" then (pySplit c.name).head? else some s
  | none => (pySplit c.name).head?

/-- The `LNAME` merge field.  By Python operator precedence,
`a or b if cond else c` parses as `(a or b) if cond else c`, so the
whole expression is the empty string whenever the name has at most one
token, regardless of `last_name`. -/
def mcLname (c : Contact) : String :=
  if 1 < (pySplit c.name).length then
    match c.last_name with
    | some s => if s = "" then joinSp (pySplit c.name).tail else s
    | none => joinSp (pySplit c.name).tail
  else ""

/-- The full request-body construction of `add_to_mailchimp`; `none`
when building the merge fields raises. -/
def buildMCReq (c : Contact) : Option MCReq :=
  (mcFname c).map (fun f => ⟨c.email, f, mcLname c, c.linkedin_url⟩)

/-- `add_to_mailchimp` from `main.py`, returning the boolean outcome
together with the request body that was posted (`none` when no network
call was attempted).  Success iff the response status is 200 or 201;
any exception inside the `try` yields `False`. -/
def add_to_mailchimp (cfg : Config) (c : Contact) (net : NetResult) :
    Bool × Option MCReq :=
  if mailchimpConfigured cfg = false then (false, none)
  else
    match buildMCReq c with
    | none => (false, none)
    | some req =>
      match net with
      | NetResult.resp s _ => (s == 200 || s == 201, some req)
      | NetResult.exn => (false, some req)

/-- The Pipedrive person payload built by `add_to_pipedrive`. -/
structure PDReq where
  name : String
  email : String
  linkedin : String
deriving DecidableEq

/-- `add_to_pipedrive` from `main.py`.  Success iff the response status
is 201 and reading `response.json()["data"]["id"]` does not raise; any
exception inside the `try` yields `False`. -/
def add_to_pipedrive (cfg : Config) (c : Contact) (net : NetResult) :
    Bool × Option PDReq :=
  if pipedriveConfigured cfg = false then (false, none)
  else
    let req : PDReq := ⟨c.name, c.email, c.linkedin_url⟩
    match net with
    | NetResult.resp s bad => (s == 201 && !bad, some req)
    | NetResult.exn => (false, some req)

/-! ## The review endpoint -/

/-- The two enrollment targets. -/
inductive Target where
  | mailingList
  | crm
deriving DecidableEq

/-- The request body of `POST /review-contact` (`ContactReview`). -/
structure ReviewReq where
  session_id : String
  contact_index : Int
  add_to_mailchimp : Bool
  add_to_pipedrive : Bool

/-- The `results` dict of the review response: one optional boolean per
target, present iff the target was requested. -/
structure ReviewResults where
  mailchimp : Option Bool
  pipedrive : Option Bool
deriving DecidableEq

/-- The HTTP outcome of `POST /review-contact`: a 200 payload, an
`HTTPException`, or an unhandled exception (FastAPI's 500 Internal
Server Error). -/
inductive ReviewResp where
  | ok (contact : Contact) (results : ReviewResults)
  | httpErr (status : Nat) (detail : String)
  | unhandled
deriving DecidableEq

/-- Python list indexing `l[i]` on an `int` index: non-negative indices
count from the front, indices in `[-len, -1]` count from the back, and
anything below `-len` raises `IndexError` (`none`). -/
def pyListGet {α : Type} (l : List α) (i : Int) : Option α :=
  if 0 ≤ i then l.get? i.toNat
  else if 0 ≤ (l.length : Int) + i then l.get? ((l.length : Int) + i).toNat
  else none

/-- `review_contact` from `main.py`.  The two `NetResult` parameters are
the outcomes of the outbound Mailchimp and Pipedrive calls for this
request.  Returns the (unchanged) store, the HTTP response, and the
list of targets for which a network post was attempted.  Note the only
index check in the source is `contact_index >= len(contacts)`, so
negative indices reach Python's list indexing. -/
def review_contact (cfg : Config) (store : Store) (req : ReviewReq)
    (netMC netPD : NetResult) : Store × ReviewResp × List Target :=
  if req.session_id = "" then
    (store, ReviewResp.httpErr 404 "Review session not found", [])
  else
    match lookupStore store req.session_id with
    | none => (store, ReviewResp.httpErr 404 "Review session not found", [])
    | some contacts =>
      if (contacts.length : Int) ≤ req.contact_index then
        (store, ReviewResp.httpErr 400 "Invalid contact index", [])
      else
        match pyListGet contacts req.contact_index with
        | none => (store, ReviewResp.unhandled, [])
        | some contact =>
          let mc := if req.add_to_mailchimp then
              some (add_to_mailchimp cfg contact netMC) else none
          let pd := if req.add_to_pipedrive then
              some (add_to_pipedrive cfg contact netPD) else none
          let calls :=
            (match mc with
             | some (_, some _) => [Target.mailingList]
             | _ => []) ++
            (match pd with
             | some (_, some _) => [Target.crm]
             | _ => [])
          (store,
           ReviewResp.ok contact ⟨mc.map (fun p => p.1), pd.map (fun p => p.1)⟩,
           calls)

/-! ## Concrete fixtures used by counterexamples and witnesses -/

/-- Row 1 of end-to-end scenario 1 in the spec. -/
def rowAnn : Row :=
  [("name", PyVal.str "Ann Lee"), ("email", PyVal.str "ann@x.com"),
   ("What is your LinkedIn profile?", PyVal.str "linkedin.com/in/ann?trk=1")]

/-- Row 2 of end-to-end scenario 1 in the spec (all fields invalid). -/
def rowEmpty : Row :=
  [("name", PyVal.str ""), ("email", PyVal.str "bad"),
   ("What is your LinkedIn profile?", PyVal.str "")]

/-- The contact produced from `rowAnn`. -/
def contactAnn : Contact :=
  ⟨"Ann Lee", "ann@x.com", "https://linkedin.com/in/ann", none, none⟩

/-- A row whose LinkedIn URL already carries an `http://` scheme. -/
def rowBo : Row :=
  [("name", PyVal.str "Bo"), ("email", PyVal.str "bo@x.com"),
   ("What is your LinkedIn profile?", PyVal.str "http://linkedin.com/in/bo")]

/-- The contact produced from `rowBo`: its URL keeps the `http://`
scheme. -/
def contactBo : Contact :=
  ⟨"Bo", "bo@x.com", "http://linkedin.com/in/bo", none, none⟩

/-- A contact with a single-token name and a present last name. -/
def contactAnnLee : Contact :=
  ⟨"Ann", "ann@x.com", "https://linkedin.com/in/ann", none, some "Lee"⟩

/-- A configuration with every credential present. -/
def cfgFull : Config := ⟨some "k", some "l", some "p", some "k", some "d"⟩

/-- A configuration with only the Pipedrive credentials present. -/
def cfgPD : Config := ⟨none, none, none, some "k", some "d"⟩

/-- A one-session store holding exactly `contactAnn`. -/
def storeOne : Store := [("s1", [contactAnn])]

/-! ## Spec-side definitions, for refinement claims -/

/-- Modelled from the spec: the three-step normalization recipe of
§4.1 — "trim whitespace; strip everything from the first `?` onward
(drop query string); prepend `https://` if the string does not already
start with `http`" — written independently of `clean_linkedin_url`. -/
def cleanRecipe (s : String) : String :=
  let trimmed := stripL s.toList
  let noQuery := trimmed.takeWhile (fun c => c ≠ '?')
  if hasPref httpChars noQuery then String.mk noQuery
  else String.mk (httpsChars ++ noQuery)

/-- Modelled from the spec: the `local@domain.tld` shape of §4.1 —
non-empty local part over ASCII letters/digits/`._%+-`, a domain with
at least one dot, and a trailing TLD of at least two letters. -/
def EmailShape (s : String) : Prop :=
  ∃ l d t : List Char,
    s.toList = l ++ '@' :: (d ++ '.' :: t) ∧
    l ≠ [] ∧ (∀ c ∈ l, isLocalChar c = true) ∧
    d ≠ [] ∧ (∀ c ∈ d, isDomChar c = true) ∧
    2 ≤ t.length ∧ (∀ c ∈ t, c.isAlpha = true)

/-- The Contact invariant of §3, with the normalization clause as the
code actually establishes it: trimmed non-empty name, regex-valid
email, a query-free `http`-prefixed URL containing `linkedin.com`
case-insensitively, and optional names that are absent or trimmed
non-empty. -/
def ContactInv (c : Contact) : Prop :=
  stripS c.name = c.name ∧ c.name ≠ "" ∧
  validate_email c.email = true ∧
  ('?' ∉ c.linkedin_url.toList) ∧
  hasPref httpChars c.linkedin_url.toList = true ∧
  hasSubL "linkedin.com".toList (lowerS c.linkedin_url).toList = true ∧
  (∀ s, c.first_name = some s → stripS s = s ∧ s ≠ "") ∧
  (∀ s, c.last_name = some s → stripS s = s ∧ s ≠ "")

/-! ## General lemmas about the string primitives -/

theorem hasPref_iff (p l : List Char) : hasPref p l = true ↔ ∃ r, l = p ++ r := by
  induction p generalizing l with
  | nil => simp [hasPref]
  | cons a as ih =>
    cases l with
    | nil => simp [hasPref]
    | cons b bs =>
      simp only [hasPref, Bool.and_eq_true, beq_iff_eq, ih, List.cons_append,
        List.cons.injEq]
      constructor
      · rintro ⟨h1, r, h2⟩
        exact ⟨r, h1.symm, h2⟩
      · rintro ⟨r, h1, h2⟩
        exact ⟨h1.symm, r, h2⟩

theorem hasSub_iff (p l : List Char) :
    hasSubL p l = true ↔ ∃ a b, l = a ++ p ++ b := by
  induction l with
  | nil =>
    simp only [hasSubL, List.isEmpty_iff]
    constructor
    · rintro rfl
      exact ⟨[], [], rfl⟩
    · rintro ⟨a, b, h⟩
      rcases List.append_eq_nil.mp h.symm with ⟨h1, h2⟩
      exact (List.append_eq_nil.mp h1).2
  | cons c cs ih =>
    simp only [hasSubL, Bool.or_eq_true, hasPref_iff, ih]
    constructor
    · rintro (⟨r, h⟩ | ⟨a, b, h⟩)
      · exact ⟨[], r, by simp [h]⟩
      · exact ⟨c :: a, b, by simp [h]⟩
    · rintro ⟨a, b, h⟩
      cases a with
      | nil =>
        left
        exact ⟨b, by simpa using h⟩
      | cons a0 as =>
        right
        simp only [List.cons_append, List.cons.injEq] at h
        exact ⟨as, b, h.2⟩

theorem dropWhile_decomp (p : Char → Bool) (l : List Char) :
    ∃ a, l = a ++ l.dropWhile p := ⟨l.takeWhile p, (List.takeWhile_append_dropWhile p l).symm⟩

theorem stripL_infix (cs : List Char) : ∃ a b, cs = a ++ stripL cs ++ b := by
  obtain ⟨a, ha⟩ := dropWhile_decomp isWs cs
  obtain ⟨b, hb⟩ := dropWhile_decomp isWs (cs.dropWhile isWs).reverse
  refine ⟨a, b.reverse, ?_⟩
  have h2 : cs.dropWhile isWs = stripL cs ++ b.reverse := by
    have := congrArg List.reverse hb
    simpa [stripL, rdropWs, ldropWs] using this
  calc cs = a ++ List.dropWhile isWs cs := ha
    _ = a ++ (stripL cs ++ b.reverse) := by rw [h2]
    _ = a ++ stripL cs ++ b.reverse := (List.append_assoc a (stripL cs) b.reverse).symm

theorem mem_stripL {c : Char} {cs : List Char} (h : c ∈ stripL cs) : c ∈ cs := by
  obtain ⟨a, b, hab⟩ := stripL_infix cs
  rw [hab]
  simp [h]

theorem stripL_getLast? {cs : List Char} {c : Char}
    (h : (stripL cs).getLast? = some c) : isWs c = false := by
  have h2 : ((ldropWs cs).reverse.dropWhile isWs).head? = some c := by
    have := h
    simp only [stripL, rdropWs] at this
    rwa [List.getLast?_reverse] at this
  have h3 := List.head?_dropWhile_not isWs (ldropWs cs).reverse
  rw [h2] at h3
  exact h3

theorem stripL_head? {cs : List Char} {c : Char}
    (h : (stripL cs).head? = some c) : isWs c = false := by
  simp only [stripL, rdropWs] at h
  set z := (ldropWs cs).reverse.dropWhile isWs with hz
  have hzne : z ≠ [] := by
    intro hnil
    rw [hnil] at h
    simp at h
  have h2 : z.getLast? = some c := by
    rwa [← List.head?_reverse]
  obtain ⟨a, ha⟩ := dropWhile_decomp isWs (ldropWs cs).reverse
  have h3 : ((ldropWs cs).reverse).getLast? = some c := by
    rw [ha, ← hz, List.getLast?_append]
    rw [h2]
    rfl
  have h4 : (ldropWs cs).head? = some c := by
    rwa [List.getLast?_reverse] at h3
  have h5 := List.head?_dropWhile_not isWs cs
  simp only [ldropWs] at h4
  rw [h4] at h5
  exact h5

theorem stripL_eq_self {cs : List Char}
    (hh : ∀ c, cs.head? = some c → isWs c = false)
    (hl : ∀ c, cs.getLast? = some c → isWs c = false) : stripL cs = cs := by
  have h1 : ldropWs cs = cs := by
    cases cs with
    | nil => rfl
    | cons a l =>
      have := hh a rfl
      simp [ldropWs, List.dropWhile_cons, this]
  have h2 : rdropWs cs = cs := by
    cases hcs : cs.reverse with
    | nil =>
      have : cs = [] := by simpa using congrArg List.reverse hcs
      simp [rdropWs, this]
    | cons a l =>
      have ha : cs.getLast? = some a := by
        rw [← List.head?_reverse, hcs]
        rfl
      have := hl a ha
      simp only [rdropWs, hcs, List.dropWhile_cons, this]
      rw [← hcs]
      simp
  rw [stripL, h1, h2]

theorem stripL_idem (cs : List Char) : stripL (stripL cs) = stripL cs :=
  stripL_eq_self (fun _ h => stripL_head? h) (fun _ h => stripL_getLast? h)

theorem takeWhile_of_all {p : Char → Bool} {l : List Char}
    (h : ∀ c ∈ l, p c = true) : l.takeWhile p = l := by
  have := @List.takeWhile_append_of_pos Char p l [] h
  simpa using this

theorem dropWhile_of_all {p : Char → Bool} {l : List Char}
    (h : ∀ c ∈ l, p c = true) : l.dropWhile p = [] := by
  induction l with
  | nil => rfl
  | cons a l ih =>
    rw [List.dropWhile_cons_of_pos (h a (by simp))]
    exact ih (fun c hc => h c (by simp [hc]))

/-! ## Lemmas about the URL normalization -/

theorem cleanL_pref (cs : List Char) : hasPref httpChars (cleanL cs) = true := by
  unfold cleanL
  set u := (stripL cs).takeWhile (fun c => c ≠ '?') with hu
  by_cases h : hasPref httpChars u = true
  · rw [if_pos h]
    exact h
  · rw [if_neg (by simp [h])]
    exact (hasPref_iff _ _).mpr ⟨['s', ':', '/', '/'] ++ u, by simp [httpChars, httpsChars]⟩

theorem mem_cleanL_ne_q {c : Char} {cs : List Char} (h : c ∈ cleanL cs) : c ≠ '?' := by
  unfold cleanL at h
  set u := (stripL cs).takeWhile (fun c => c ≠ '?') with hu
  have humem : ∀ x ∈ u, x ≠ '?' := by
    intro x hx
    have := List.all_takeWhile (p := fun c => decide (c ≠ '?')) (l := stripL cs)
    rw [List.all_eq_true] at this
    have := this x (by rw [hu] at hx; simpa using hx)
    simpa using this
  by_cases hp : hasPref httpChars u = true
  · rw [if_pos hp] at h
    exact humem c h
  · rw [if_neg hp] at h
    rcases List.mem_append.mp h with h1 | h2
    · rcases h1 with h1
      simp only [httpsChars] at h1
      intro hc
      subst hc
      simp at h1
    · exact humem c h2

theorem cleanL_ne_nil (cs : List Char) : cleanL cs ≠ [] := by
  have := cleanL_pref cs
  rw [hasPref_iff] at this
  obtain ⟨r, hr⟩ := this
  rw [hr]
  simp [httpChars]

theorem cleanL_cleanL (cs : List Char) : cleanL (cleanL cs) = stripL (cleanL cs) := by
  obtain ⟨r, hr⟩ := (hasPref_iff _ _).mp (cleanL_pref cs)
  set t := cleanL cs with ht
  have hld : ldropWs t = t := by
    rw [hr]
    simp only [httpChars, List.cons_append, ldropWs]
    rw [List.dropWhile_cons_of_neg (by simp [isWs])]
  have hstrip : stripL t = rdropWs t := by rw [stripL, hld]
  have key : rdropWs (httpChars ++ r) = httpChars ∨
      rdropWs (httpChars ++ r) = httpChars ++ rdropWs r := by
    unfold rdropWs
    rw [List.reverse_append, List.dropWhile_append]
    by_cases hre : (List.dropWhile isWs r.reverse).isEmpty
    · left
      rw [if_pos hre]
      decide
    · right
      rw [if_neg hre, List.reverse_append, List.reverse_reverse]
  have hpref2 : hasPref httpChars (stripL t) = true := by
    rw [hstrip, hr]
    rcases key with h | h
    · rw [h]
      decide
    · rw [h]
      exact (hasPref_iff _ _).mpr ⟨rdropWs r, rfl⟩
  have hnoq : ∀ c ∈ stripL t, (c ≠ '?') := by
    intro c hc
    exact mem_cleanL_ne_q (mem_stripL hc)
  have htake : (stripL t).takeWhile (fun c => c ≠ '?') = stripL t :=
    takeWhile_of_all (by intro c hc; simpa using hnoq c hc)
  conv_lhs => rw [cleanL]
  rw [htake, if_pos hpref2]

theorem mk_eq_empty_iff (l : List Char) : String.mk l = "" ↔ l = [] := by
  constructor
  · intro h
    have : (String.mk l).toList = ("" : String).toList := by rw [h]
    simpa using this
  · intro h
    rw [h]

theorem cleanPy_eq {s : String} (hs : s ≠ "") :
    cleanPy s = String.mk (cleanL s.toList) := by
  simp [cleanPy, clean_linkedin_url, pyTruthy, pyIsna, pyStr, hs]

/-! ## Claim C6 — idempotence of URL normalization -/

/-- C6 counterexample: normalization is not idempotent.  For
`"abc ?q"` the first pass strips the query but exposes a trailing
space (`"https://abc "`), which only the second pass trims away
(`"https://abc"`). -/
theorem normalize_idempotent_counterexample :
    cleanPy (cleanPy "abc ?q") ≠ cleanPy "abc ?q" := by decide

/-- C6 amended: a second application of the normalization is exactly a
`strip` of the first application's result — so normalization is
idempotent precisely on inputs whose normalized form carries no
trailing whitespace exposed by dropping the query string. -/
theorem normalize_twice_eq_strip (s : String) :
    cleanPy (cleanPy s) = stripS (cleanPy s) := by
  by_cases hs : s = ""
  · subst hs
    decide
  · rw [cleanPy_eq hs]
    have hne : String.mk (cleanL s.toList) ≠ "" := by
      rw [ne_eq, mk_eq_empty_iff]
      exact cleanL_ne_nil s.toList
    rw [cleanPy_eq hne]
    show String.mk (cleanL (cleanL s.toList)) = stripS (String.mk (cleanL s.toList))
    rw [cleanL_cleanL]
    rfl

/-! ## Claim C5 — the normalization recipe and scenario 1 -/

/-- C5 counterexample: on the empty field value the code's
`clean_linkedin_url` returns `""` (its falsy-value guard), while the
spec's trim/strip-query/prepend recipe would produce `"https://"`. -/
theorem clean_recipe_counterexample : cleanPy "" ≠ cleanRecipe "" := by decide

/-- C5 amended: the normalization function agrees with the spec's
three-step recipe on every non-empty field value (empty and NaN values
short-circuit to `""`), and ingesting the two-row CSV of scenario 1
yields one contact whose URL is `https://linkedin.com/in/ann`. -/
theorem clean_recipe_amended :
    (∀ s : String, s ≠ "" → cleanPy s = cleanRecipe s) ∧
    (upload_csv [] "contacts.csv" (Except.ok [rowAnn, rowEmpty]) "u1").2 =
      UploadResp.ok ⟨"u1", 1, [contactAnn]⟩ ∧
    contactAnn.linkedin_url = "https://linkedin.com/in/ann" := by
  refine ⟨?_, by decide, by decide⟩
  intro s hs
  rw [cleanPy_eq hs]
  simp only [cleanRecipe, cleanL]
  exact apply_ite String.mk _ _ _

/-- Witness for the amended C5 at a concrete non-empty input. -/
theorem clean_recipe_amended_witness :
    cleanPy "linkedin.com/x" = cleanRecipe "linkedin.com/x" :=
  clean_recipe_amended.1 "linkedin.com/x" (by decide)

/-! ## Claim C4 — validity of stored contacts -/

theorem stripS_idem (s : String) : stripS (stripS s) = stripS s :=
  congrArg String.mk (stripL_idem s.toList)

theorem hasSub_extend {pat m : List Char} (a b : List Char)
    (h : hasSubL pat m = true) : hasSubL pat (a ++ m ++ b) = true := by
  rw [hasSub_iff] at h ⊢
  obtain ⟨x, y, hxy⟩ := h
  exact ⟨a ++ x, y ++ b, by simp [hxy]⟩

theorem optField_cases (r : Row) (col : String) :
    optField r col = "" ∨ stripS (optField r col) = optField r col := by
  unfold optField
  cases rowGet? r col with
  | none => exact Or.inl rfl
  | some v =>
    cases v with
    | str s => exact Or.inr (stripS_idem s)
    | nan => exact Or.inl rfl

theorem clean_ne_empty_eq {v : PyVal} (h : clean_linkedin_url v ≠ "") :
    ∃ cs, clean_linkedin_url v = String.mk (cleanL cs) := by
  unfold clean_linkedin_url at h ⊢
  by_cases h1 : pyTruthy v = false
  · rw [if_pos h1] at h
    exact absurd rfl h
  · rw [if_neg h1] at h ⊢
    by_cases h2 : pyIsna v = true
    · rw [if_pos h2] at h
      exact absurd rfl h
    · rw [if_neg h2]
      exact ⟨(pyStr v).toList, rfl⟩

theorem validate_linkedin_sub {s : String} (h : validate_linkedin_url s = true) :
    hasSubL "linkedin.com".toList (lowerS s).toList = true := by
  unfold validate_linkedin_url at h
  by_cases hs : s = ""
  · rw [if_pos hs] at h
    exact absurd h (by simp)
  · rw [if_neg hs] at h
    obtain ⟨a, b, hab⟩ := stripL_infix s.toList
    have hmap : (lowerS s).toList =
        a.map Char.toLower ++ (stripL s.toList).map Char.toLower ++ b.map Char.toLower := by
      show s.toList.map Char.toLower = _
      conv_lhs => rw [hab]
      simp
    rw [hmap]
    exact hasSub_extend _ _ h

theorem classifyRow_inv {r : Row} {c : Contact} (h : classifyRow r = some c) :
    ContactInv c := by
  unfold classifyRow at h
  set name := stripS (pyStr (rowGetD r "name" "")) with hname
  set email := stripS (pyStr (rowGetD r "email" "")) with hemail
  set lk := clean_linkedin_url (rowGetD r "What is your LinkedIn profile?" "") with hlk
  by_cases h1 : (name = "" || email = "" || lk = "") = true
  · rw [if_pos h1] at h
    exact absurd h (by simp)
  · rw [if_neg h1] at h
    simp only [Bool.or_eq_true, decide_eq_true_eq, not_or] at h1
    obtain ⟨⟨hn, he⟩, hl⟩ := h1
    by_cases h2 : validate_email email = false
    · rw [if_pos h2] at h
      exact absurd h (by simp)
    · rw [if_neg h2] at h
      by_cases h3 : validate_linkedin_url lk = false
      · rw [if_pos h3] at h
        exact absurd h (by simp)
      · rw [if_neg h3] at h
        have hve : validate_email email = true := by
          cases hveb : validate_email email with
          | false => exact absurd hveb h2
          | true => rfl
        have hvl : validate_linkedin_url lk = true := by
          cases hvlb : validate_linkedin_url lk with
          | false => exact absurd hvlb h3
          | true => rfl
        obtain ⟨cs0, hcs0⟩ := clean_ne_empty_eq (v := rowGetD r "What is your LinkedIn profile?" "") hl
        rw [Option.some_inj] at h
        subst h
        refine ⟨?_, hn, hve, ?_, ?_, ?_, ?_, ?_⟩
        · exact stripS_idem _
        · show '?' ∉ lk.toList
          rw [hlk, hcs0]
          intro hmem
          exact mem_cleanL_ne_q hmem rfl
        · show hasPref httpChars lk.toList = true
          rw [hlk, hcs0]
          exact cleanL_pref cs0
        · exact validate_linkedin_sub hvl
        · intro s hs
          simp only at hs
          by_cases hfn : optField r "first_name" = ""
          · rw [if_pos hfn] at hs
            exact absurd hs (by simp)
          · rw [if_neg hfn] at hs
            rw [Option.some_inj] at hs
            subst hs
            rcases optField_cases r "first_name" with hc | hc
            · exact absurd hc hfn
            · exact ⟨hc, hfn⟩
        · intro s hs
          simp only at hs
          by_cases hln : optField r "last_name" = ""
          · rw [if_pos hln] at hs
            exact absurd hs (by simp)
          · rw [if_neg hln] at hs
            rw [Option.some_inj] at hs
            subst hs
            rcases optField_cases r "last_name" with hc | hc
            · exact absurd hc hln
            · exact ⟨hc, hln⟩

theorem lookupStore_cons (k : String) (v : List Contact) (st : Store) (sid : String) :
    lookupStore ((k, v) :: st) sid =
      if k == sid then some v else lookupStore st sid := by
  unfold lookupStore
  cases h : (k == sid) with
  | true => simp [List.find?_cons, h]
  | false => simp [List.find?_cons, h]

/-- C4 counterexample: a stored contact whose LinkedIn URL does not
carry the `https://` scheme.  The row's URL already starts with `http`,
so the normalization leaves the `http://` scheme in place, yet the
contact is stored. -/
theorem contact_invariant_counterexample :
    (upload_csv [] "b.csv" (Except.ok [rowBo]) "sidB").1 = [("sidB", [contactBo])] ∧
    hasPref httpsChars contactBo.linkedin_url.toList = false := by decide

/-- C4 amended: every contact stored by an upload satisfies the
invariant — trimmed non-empty name, regex-valid email, a query-free
URL that starts with `http` (with `https://` prepended only when the
raw value did not already start with `http`) and contains
`linkedin.com` case-insensitively, and optional first/last names that
are absent or trimmed non-empty; the review endpoint never modifies
stored contacts, so uploads are the only writer. -/
theorem contact_invariant_stored (store : Store) (filename uuid : String)
    (input : Except Unit (List Row))
    (hstore : ∀ sid cs, lookupStore store sid = some cs → ∀ c ∈ cs, ContactInv c) :
    ∀ sid cs, lookupStore (upload_csv store filename input uuid).1 sid = some cs →
      ∀ c ∈ cs, ContactInv c := by
  intro sid cs hlook c hc
  unfold upload_csv at hlook
  by_cases h1 : strEndsWith filename ".csv" = false
  · rw [if_pos h1] at hlook
    exact hstore sid cs hlook c hc
  · rw [if_neg h1] at hlook
    cases input with
    | error u =>
      simp only [parse_csv] at hlook
      exact hstore sid cs hlook c hc
    | ok rows =>
      simp only [parse_csv] at hlook
      by_cases h2 : (rows.filterMap classifyRow).isEmpty = true
      · rw [if_pos h2] at hlook
        exact hstore sid cs hlook c hc
      · rw [if_neg h2] at hlook
        rw [lookupStore_cons] at hlook
        by_cases h3 : (uuid == sid) = true
        · rw [if_pos h3, Option.some_inj] at hlook
          subst hlook
          obtain ⟨r, _, hr⟩ := List.mem_filterMap.mp hc
          exact classifyRow_inv hr
        · rw [if_neg h3] at hlook
          exact hstore sid cs hlook c hc

/-- Witness for the amended C4: the contact stored from scenario 1's
valid row satisfies the invariant. -/
theorem contact_invariant_stored_witness : ContactInv contactAnn :=
  contact_invariant_stored [] "contacts.csv" "u1" (Except.ok [rowAnn, rowEmpty])
    (fun _ _ h => nomatch h) "u1" [contactAnn] (by decide) contactAnn (by decide)

/-! ## Claim C7 — the email regex matches exactly the spec's shape -/

theorem tldOk_iff (t : List Char) :
    tldOk t = true ↔ 2 ≤ t.length ∧ ∀ c ∈ t, c.isAlpha = true := by
  simp [tldOk, List.all_eq_true]

theorem tailDom_iff (cs : List Char) :
    tailDom cs = true ↔
      ∃ d t, cs = d ++ '.' :: t ∧ (∀ c ∈ d, isDomChar c = true) ∧ tldOk t = true := by
  induction cs with
  | nil =>
    simp only [tailDom]
    constructor
    · intro h
      exact absurd h (by simp)
    · rintro ⟨d, t, h, -, -⟩
      exact absurd h.symm (by simp)
  | cons c cs ih =>
    simp only [tailDom, Bool.or_eq_true, Bool.and_eq_true, beq_iff_eq, ih]
    constructor
    · rintro (⟨rfl, ht⟩ | ⟨hd, d, t, rfl, hall, ht⟩)
      · exact ⟨[], cs, rfl, by simp, ht⟩
      · exact ⟨c :: d, t, rfl, by
          intro x hx
          rcases List.mem_cons.mp hx with rfl | hx
          · exact hd
          · exact hall x hx, ht⟩
    · rintro ⟨d, t, heq, hall, ht⟩
      cases d with
      | nil =>
        simp only [List.nil_append, List.cons.injEq] at heq
        exact Or.inl ⟨heq.1, heq.2 ▸ ht⟩
      | cons d0 ds =>
        simp only [List.cons_append, List.cons.injEq] at heq
        refine Or.inr ⟨heq.1 ▸ hall d0 (by simp), ds, t, heq.2, ?_, ht⟩
        intro x hx
        exact hall x (by simp [hx])

theorem domOk_iff (cs : List Char) :
    domOk cs = true ↔
      ∃ d t, cs = d ++ '.' :: t ∧ d ≠ [] ∧ (∀ c ∈ d, isDomChar c = true) ∧
        tldOk t = true := by
  cases cs with
  | nil =>
    simp only [domOk]
    constructor
    · intro h
      exact absurd h (by simp)
    · rintro ⟨d, t, h, -, -, -⟩
      exact absurd h.symm (by simp)
  | cons c cs =>
    simp only [domOk, Bool.and_eq_true, tailDom_iff]
    constructor
    · rintro ⟨hc, d, t, rfl, hall, ht⟩
      refine ⟨c :: d, t, rfl, by simp, ?_, ht⟩
      intro x hx
      rcases List.mem_cons.mp hx with rfl | hx
      · exact hc
      · exact hall x hx
    · rintro ⟨d, t, heq, hne, hall, ht⟩
      cases d with
      | nil => exact absurd rfl hne
      | cons d0 ds =>
        simp only [List.cons_append, List.cons.injEq] at heq
        refine ⟨heq.1 ▸ hall d0 (by simp), ds, t, heq.2, ?_, ht⟩
        intro x hx
        exact hall x (by simp [hx])

theorem takeW_dropW_split {p : Char → Bool} {l r : List Char} {c0 : Char}
    (hall : ∀ c ∈ l, p c = true) (h0 : p c0 = false) :
    (l ++ c0 :: r).takeWhile p = l ∧ (l ++ c0 :: r).dropWhile p = c0 :: r := by
  constructor
  · rw [List.takeWhile_append_of_pos hall, List.takeWhile_cons_of_neg (by simp [h0])]
    simp
  · rw [List.dropWhile_append, dropWhile_of_all hall]
    simp only [List.isEmpty_nil, if_true]
    rw [List.dropWhile_cons_of_neg (by simp [h0])]

theorem validateEmailL_iff (cs : List Char) :
    validateEmailL cs = true ↔
      ∃ l d t : List Char,
        cs = l ++ '@' :: (d ++ '.' :: t) ∧
        l ≠ [] ∧ (∀ c ∈ l, isLocalChar c = true) ∧
        d ≠ [] ∧ (∀ c ∈ d, isDomChar c = true) ∧
        2 ≤ t.length ∧ (∀ c ∈ t, c.isAlpha = true) := by
  constructor
  · intro h
    unfold validateEmailL at h
    cases hdrop : cs.dropWhile (fun c => c ≠ '@') with
    | nil => rw [hdrop] at h; exact absurd h (by simp)
    | cons a rest =>
      have ha : a = '@' := by
        have := List.head?_dropWhile_not (fun c => decide (c ≠ '@')) cs
        rw [hdrop] at this
        simpa using this
      subst ha
      rw [hdrop] at h
      simp only [Bool.and_eq_true, Bool.not_eq_true', List.isEmpty_eq_false,
        List.all_eq_true] at h
      obtain ⟨⟨hne, hloc⟩, hdom⟩ := h
      obtain ⟨d, t, rfl, hdne, hdall, ht⟩ := (domOk_iff rest).mp hdom
      rw [tldOk_iff] at ht
      refine ⟨cs.takeWhile (fun c => c ≠ '@'), d, t, ?_, hne, ?_, hdne, hdall,
        ht.1, ht.2⟩
      · conv_lhs => rw [← List.takeWhile_append_dropWhile (fun c => decide (c ≠ '@')) cs]
        rw [hdrop]
      · intro c hc
        simpa using hloc c hc
  · rintro ⟨l, d, t, rfl, hlne, hloc, hdne, hdall, htlen, htall⟩
    have hlocne : ∀ c ∈ l, (fun c => decide (c ≠ '@')) c = true := by
      intro c hc
      have := hloc c hc
      simp only [decide_eq_true_eq, ne_eq]
      intro hceq
      subst hceq
      exact absurd this (by decide)
    obtain ⟨htake, hdrop⟩ :=
      @takeW_dropW_split (fun c => decide (c ≠ '@')) l (d ++ '.' :: t) '@' hlocne (by decide)
    unfold validateEmailL
    rw [hdrop, htake]
    simp only [Bool.and_eq_true, Bool.not_eq_true', List.isEmpty_eq_false,
      List.all_eq_true]
    refine ⟨⟨hlne, hloc⟩, ?_⟩
    rw [domOk_iff]
    exact ⟨d, t, rfl, hdne, hdall, (tldOk_iff t).mpr ⟨htlen, htall⟩⟩

theorem validate_email_of_no_trailing_nl {s : String}
    (h : ∀ c, s.toList.getLast? = some c → isWs c = false) :
    validate_email s = validateEmailL s.toList := by
  unfold validate_email
  cases hlast : s.toList.getLast? with
  | none => simp
  | some c =>
    have hc : (c == '\n') = false := by
      have := h c hlast
      simp only [beq_eq_false_iff_ne, ne_eq]
      intro hceq
      subst hceq
      exact absurd this (by decide)
    simp [hc]

theorem email_shape_decides_acceptance (r : Row)
    (hname : stripS (pyStr (rowGetD r "name" "")) ≠ "")
    (hlk : validate_linkedin_url
      (clean_linkedin_url (rowGetD r "What is your LinkedIn profile?" "")) = true) :
    (classifyRow r).isSome = true ↔
      EmailShape (stripS (pyStr (rowGetD r "email" ""))) := by
  have hlkne : clean_linkedin_url (rowGetD r "What is your LinkedIn profile?" "") ≠ "" := by
    intro hempty
    rw [validate_linkedin_url, if_pos hempty] at hlk
    exact absurd hlk (by simp)
  have hstripped : validate_email (stripS (pyStr (rowGetD r "email" ""))) =
      validateEmailL (stripS (pyStr (rowGetD r "email" ""))).toList :=
    validate_email_of_no_trailing_nl (by
      intro c hc
      exact stripL_getLast? hc)
  unfold classifyRow
  set email := stripS (pyStr (rowGetD r "email" "")) with hemail
  by_cases he : email = ""
  · rw [if_pos (by simp [hname, he, hlkne])]
    simp only [Option.isSome_none, Bool.false_eq_true, false_iff]
    rintro ⟨l, d, t, habs, hlne, -⟩
    rw [he] at habs
    cases l with
    | nil => exact absurd rfl hlne
    | cons x xs => exact absurd habs (by simp)
  · rw [if_neg (by simp [hname, he, hlkne])]
    by_cases hv : validate_email email = false
    · rw [if_pos hv]
      simp only [Option.isSome_none, Bool.false_eq_true, false_iff]
      intro hshape
      obtain ⟨l, d, t, heq, h2, h3, h4, h5, h6, h7⟩ := hshape
      have : validateEmailL email.toList = true :=
        (validateEmailL_iff email.toList).mpr ⟨l, d, t, heq, h2, h3, h4, h5, h6, h7⟩
      rw [hstripped] at hv
      rw [this] at hv
      exact absurd hv (by simp)
    · rw [if_neg hv]
      rw [if_neg (by simp [hlk])]
      simp only [Option.isSome_some, true_iff]
      have hv2 : validate_email email = true := by
        cases hb : validate_email email with
        | false => exact absurd hb hv
        | true => rfl
      rw [hstripped] at hv2
      obtain ⟨l, d, t, heq, h2, h3, h4, h5, h6, h7⟩ :=
        (validateEmailL_iff email.toList).mp hv2
      exact ⟨l, d, t, heq, h2, h3, h4, h5, h6, h7⟩

/-- Witness for C7: the iff instantiated at scenario 1's valid row. -/
theorem email_shape_decides_acceptance_witness :
    (classifyRow rowAnn).isSome = true ↔
      EmailShape (stripS (pyStr (rowGetD rowAnn "email" ""))) :=
  email_shape_decides_acceptance rowAnn (by decide) (by decide)

/-! ## Lemmas about the review endpoint -/

theorem review_contact_spec (cfg : Config) (store : Store) (req : ReviewReq)
    (netMC netPD : NetResult) :
    (review_contact cfg store req netMC netPD).1 = store ∧
    ((∃ contact,
        (review_contact cfg store req netMC netPD).2.1 = ReviewResp.ok contact
          ⟨(if req.add_to_mailchimp then some (add_to_mailchimp cfg contact netMC).1 else none),
           (if req.add_to_pipedrive then some (add_to_pipedrive cfg contact netPD).1 else none)⟩ ∧
        (review_contact cfg store req netMC netPD).2.2 =
          (if req.add_to_mailchimp = true ∧ (add_to_mailchimp cfg contact netMC).2 ≠ none
           then [Target.mailingList] else []) ++
          (if req.add_to_pipedrive = true ∧ (add_to_pipedrive cfg contact netPD).2 ≠ none
           then [Target.crm] else [])) ∨
     ((∀ ct res, (review_contact cfg store req netMC netPD).2.1 ≠ ReviewResp.ok ct res) ∧
      (review_contact cfg store req netMC netPD).2.2 = [])) := by
  unfold review_contact
  split
  · exact ⟨rfl, Or.inr ⟨fun ct res h => by simp at h, rfl⟩⟩
  · split
    · exact ⟨rfl, Or.inr ⟨fun ct res h => by simp at h, rfl⟩⟩
    · split
      · exact ⟨rfl, Or.inr ⟨fun ct res h => by simp at h, rfl⟩⟩
      · split
        · exact ⟨rfl, Or.inr ⟨fun ct res h => by simp at h, rfl⟩⟩
        · rename_i contacts contact hg
          refine ⟨rfl, Or.inl ⟨contact, ?_, ?_⟩⟩
          · cases hA : req.add_to_mailchimp <;> cases hB : req.add_to_pipedrive <;>
              simp [hA, hB]
          · rcases hadd : add_to_mailchimp cfg contact netMC with ⟨b1, o1⟩
            rcases hpdd : add_to_pipedrive cfg contact netPD with ⟨b2, o2⟩
            cases hA : req.add_to_mailchimp <;> cases hB : req.add_to_pipedrive <;>
              cases o1 <;> cases o2 <;> simp [hA, hB, hadd, hpdd]

theorem review_ok_of_valid (cfg : Config) (store : Store) (sid : String)
    (contacts : List Contact) (i : Nat) (am ap : Bool) (mc pd : NetResult)
    (hsid : sid ≠ "") (hl : lookupStore store sid = some contacts)
    (hi : i < contacts.length) :
    ∃ contact, contacts.get? i = some contact ∧
      (review_contact cfg store ⟨sid, (i : Int), am, ap⟩ mc pd).1 = store ∧
      (review_contact cfg store ⟨sid, (i : Int), am, ap⟩ mc pd).2.1 =
        ReviewResp.ok contact
          ⟨(if am then some (add_to_mailchimp cfg contact mc).1 else none),
           (if ap then some (add_to_pipedrive cfg contact pd).1 else none)⟩ := by
  have hcond : ¬ ((contacts.length : Int) ≤ (i : Int)) := by
    simp only [not_le]
    exact_mod_cast hi
  have hget : pyListGet contacts (i : Int) = contacts.get? i := by
    unfold pyListGet
    rw [if_pos (Int.natCast_nonneg i)]
    simp
  have hcontact : contacts.get? i = some (contacts.get ⟨i, hi⟩) := List.get?_eq_get hi
  have hcontact2 : contacts[i]? = some (contacts.get ⟨i, hi⟩) := by
    rw [← List.get?_eq_getElem?]
    exact hcontact
  refine ⟨contacts.get ⟨i, hi⟩, hcontact, ?_, ?_⟩ <;>
    simp [review_contact, hsid, hl, hcond, hget, hcontact, hcontact2]

/-! ## Claim C10 — review never mutates the Contact Store -/

/-- C10: the review endpoint returns the store it was given — whatever
the request and whatever the gateways return — so no dispatch outcome
can be persisted in process state; the response is the only record. -/
theorem review_leaves_store_unchanged (cfg : Config) (store : Store)
    (req : ReviewReq) (mc pd mc2 pd2 : NetResult) :
    (review_contact cfg store req mc pd).1 = store ∧
    (review_contact cfg store req mc pd).1 =
      (review_contact cfg store req mc2 pd2).1 := by
  refine ⟨(review_contact_spec cfg store req mc pd).1, ?_⟩
  rw [(review_contact_spec cfg store req mc pd).1,
    (review_contact_spec cfg store req mc2 pd2).1]

/-! ## Claim C1 — dispatch outcomes are returned, not recorded -/

/-- C1 counterexample: with the same session, index and target, a
gateway success (HTTP 200) and a gateway failure (HTTP 500) leave the
process state bit-for-bit identical while the returned outcomes differ
— so no state component (in particular no dispatch log) records the
outcome of the requested `(contactIndex, target)` pair. -/
theorem dispatch_log_counterexample :
    (review_contact cfgFull storeOne ⟨"s1", 0, true, false⟩
      (NetResult.resp 200 false) NetResult.exn).1 =
      (review_contact cfgFull storeOne ⟨"s1", 0, true, false⟩
        (NetResult.resp 500 false) NetResult.exn).1 ∧
    (review_contact cfgFull storeOne ⟨"s1", 0, true, false⟩
      (NetResult.resp 200 false) NetResult.exn).2.1 ≠
      (review_contact cfgFull storeOne ⟨"s1", 0, true, false⟩
        (NetResult.resp 500 false) NetResult.exn).2.1 := by decide

/-- C1 amended: on a valid session and in-range index the call returns
the boolean gateway outcome for each requested target in the response
body, leaves the session state unchanged, and a sequential re-dispatch
of the same `(session, index, target)` returns the fresh outcome of the
second gateway interaction — the returned results, not any stored
entry, are the only record. -/
theorem review_outcomes_returned (cfg : Config) (store : Store) (sid : String)
    (contacts : List Contact) (i : Nat) (am ap : Bool)
    (mc1 pd1 mc2 pd2 : NetResult)
    (hsid : sid ≠ "") (hl : lookupStore store sid = some contacts)
    (hi : i < contacts.length) :
    ∃ contact, contacts.get? i = some contact ∧
      (review_contact cfg store ⟨sid, (i : Int), am, ap⟩ mc1 pd1).1 = store ∧
      (review_contact cfg store ⟨sid, (i : Int), am, ap⟩ mc1 pd1).2.1 =
        ReviewResp.ok contact
          ⟨(if am then some (add_to_mailchimp cfg contact mc1).1 else none),
           (if ap then some (add_to_pipedrive cfg contact pd1).1 else none)⟩ ∧
      (review_contact cfg
          ((review_contact cfg store ⟨sid, (i : Int), am, ap⟩ mc1 pd1).1)
          ⟨sid, (i : Int), am, ap⟩ mc2 pd2).2.1 =
        ReviewResp.ok contact
          ⟨(if am then some (add_to_mailchimp cfg contact mc2).1 else none),
           (if ap then some (add_to_pipedrive cfg contact pd2).1 else none)⟩ := by
  obtain ⟨contact, hget, hstore, hresp⟩ :=
    review_ok_of_valid cfg store sid contacts i am ap mc1 pd1 hsid hl hi
  obtain ⟨contact2, hget2, hstore2, hresp2⟩ :=
    review_ok_of_valid cfg store sid contacts i am ap mc2 pd2 hsid hl hi
  have hceq : contact2 = contact := by
    rw [hget] at hget2
    exact (Option.some_inj.mp hget2).symm
  subst hceq
  exact ⟨contact2, hget, hstore, hresp, by rw [hstore]; exact hresp2⟩

/-- Witness for the amended C1: the store component is unchanged on a
concrete valid call. -/
theorem review_outcomes_returned_witness :
    (review_contact cfgPD storeOne ⟨"s1", (0 : Int), true, true⟩
      NetResult.exn (NetResult.resp 201 false)).1 = storeOne := by
  obtain ⟨ct, h1, h2, h3, h4⟩ :=
    review_outcomes_returned cfgPD storeOne "s1" [contactAnn] 0 true true
      NetResult.exn (NetResult.resp 201 false) (NetResult.resp 200 false)
      (NetResult.resp 500 false) (by decide) (by decide) (by decide)
  exact h2

/-! ## Claim C2 — negative contact indices escape the bounds check -/

/-- C2 is violated by the code: the only bounds check is
`contact_index >= len(contacts)`, so `contact_index = -1` on a
one-contact session is processed through Python's negative indexing —
the call returns HTTP 200 with the last contact and posts to the
requested gateway — and `contact_index = -2` raises an uncaught
`IndexError` (HTTP 500), in both cases instead of the claimed
`IndexOutOfRange` (HTTP 400) with no gateway invocation. -/
theorem negative_index_processed :
    (review_contact cfgFull storeOne ⟨"s1", -1, true, false⟩
      (NetResult.resp 201 false) (NetResult.resp 201 false)).2.1 =
      ReviewResp.ok contactAnn ⟨some true, none⟩ ∧
    (review_contact cfgFull storeOne ⟨"s1", -1, true, false⟩
      (NetResult.resp 201 false) (NetResult.resp 201 false)).2.2 =
      [Target.mailingList] ∧
    (review_contact cfgFull storeOne ⟨"s1", -2, true, false⟩
      (NetResult.resp 201 false) (NetResult.resp 201 false)).2.1 =
      ReviewResp.unhandled ∧
    (review_contact cfgFull storeOne ⟨"s1", 1, true, false⟩
      (NetResult.resp 201 false) (NetResult.resp 201 false)).2.1 =
      ReviewResp.httpErr 400 "Invalid contact index" := by decide

/-! ## Claim C3 — the Empty ingest error is swallowed into a 500 -/

/-- C3 is violated by the code: when zero rows survive validation the
`HTTPException(400, "No valid contacts found in CSV")` is raised inside
the blanket `except Exception` of `upload_csv`, which re-raises it as
HTTP 500 — the caller sees 500, not the claimed 400.  No session is
created and the store is unchanged, as claimed. -/
theorem empty_csv_surfaces_500 :
    uploadErrStatus (upload_csv [] "x.csv" (Except.ok [rowEmpty]) "u1").2 = some 500 ∧
    (upload_csv [] "x.csv" (Except.ok [rowEmpty]) "u1").1 = [] ∧
    uploadErrStatus (upload_csv [] "x.csv" (Except.ok []) "u1").2 = some 500 ∧
    (upload_csv [] "x.csv" (Except.ok []) "u1").1 = [] := by decide

/-! ## Claim C8 — gateways fail closed -/

/-- C8: each adapter returns `(false, no request)` when its credentials
are absent, so the requested target resolves to outcome `false` without
a network call; and when the outbound call raises, both adapters return
`false` instead of propagating — at the review level an unconfigured
target yields `results.target = false` and that target never appears
among the attempted network calls. -/
theorem gateways_fail_closed (cfg : Config) (c : Contact) (net : NetResult)
    (store : Store) (req : ReviewReq) (netMC netPD : NetResult) :
    (mailchimpConfigured cfg = false → add_to_mailchimp cfg c net = (false, none)) ∧
    (pipedriveConfigured cfg = false → add_to_pipedrive cfg c net = (false, none)) ∧
    (add_to_mailchimp cfg c NetResult.exn).1 = false ∧
    (add_to_pipedrive cfg c NetResult.exn).1 = false ∧
    (mailchimpConfigured cfg = false →
      Target.mailingList ∉ (review_contact cfg store req netMC netPD).2.2 ∧
      ∀ ct res, (review_contact cfg store req netMC netPD).2.1 = ReviewResp.ok ct res →
        req.add_to_mailchimp = true → res.mailchimp = some false) ∧
    (pipedriveConfigured cfg = false →
      Target.crm ∉ (review_contact cfg store req netMC netPD).2.2 ∧
      ∀ ct res, (review_contact cfg store req netMC netPD).2.1 = ReviewResp.ok ct res →
        req.add_to_pipedrive = true → res.pipedrive = some false) := by
  have hmc : ∀ (h : mailchimpConfigured cfg = false) ct n,
      add_to_mailchimp cfg ct n = (false, none) := by
    intro h ct n
    unfold add_to_mailchimp
    rw [if_pos h]
  have hpd : ∀ (h : pipedriveConfigured cfg = false) ct n,
      add_to_pipedrive cfg ct n = (false, none) := by
    intro h ct n
    unfold add_to_pipedrive
    rw [if_pos h]
  refine ⟨fun h => hmc h c net, fun h => hpd h c net, ?_, ?_, ?_, ?_⟩
  · by_cases h : mailchimpConfigured cfg = false
    · rw [hmc h c NetResult.exn]
    · simp only [add_to_mailchimp, if_neg h]
      cases buildMCReq c <;> simp
  · by_cases h : pipedriveConfigured cfg = false
    · rw [hpd h c NetResult.exn]
    · simp [add_to_pipedrive, if_neg h]
  · intro h
    rcases (review_contact_spec cfg store req netMC netPD).2 with
      ⟨ct, hok, hcalls⟩ | ⟨hnotok, hcalls⟩
    · constructor
      · rw [hcalls, hmc h ct netMC]
        simp
      · intro ct2 res hres hreq
        rw [hok] at hres
        obtain ⟨hcteq, hreseq⟩ := ReviewResp.ok.inj hres
        rw [← hreseq]
        simp [hreq, hmc h ct netMC]
    · constructor
      · rw [hcalls]
        simp
      · intro ct2 res hres _
        exact absurd hres (hnotok ct2 res)
  · intro h
    rcases (review_contact_spec cfg store req netMC netPD).2 with
      ⟨ct, hok, hcalls⟩ | ⟨hnotok, hcalls⟩
    · constructor
      · rw [hcalls, hpd h ct netPD]
        simp
      · intro ct2 res hres hreq
        rw [hok] at hres
        obtain ⟨hcteq, hreseq⟩ := ReviewResp.ok.inj hres
        rw [← hreseq]
        simp [hreq, hpd h ct netPD]
    · constructor
      · rw [hcalls]
        simp
      · intro ct2 res hres _
        exact absurd hres (hnotok ct2 res)

/-- Witness for C8: the unconfigured Mailchimp adapter fails closed on
a concrete contact. -/
theorem gateways_fail_closed_witness :
    add_to_mailchimp cfgPD contactAnn NetResult.exn = (false, none) :=
  (gateways_fail_closed cfgPD contactAnn NetResult.exn storeOne
    ⟨"s1", 0, true, true⟩ NetResult.exn (NetResult.resp 201 false)).1 (by decide)

/-! ## Claim C9 — the Mailchimp merge fields -/

/-- C9 counterexample: for a contact whose name is the single token
`"Ann"` but whose `last_name` is present (`"Lee"`), the adapter posts
`LNAME = ""`, not `"Lee"`: by Python operator precedence the whole
`or`-expression is guarded by the token count, so a single-token name
forces an empty last-name merge field even when `lastName` is set. -/
theorem mailchimp_lname_counterexample :
    (add_to_mailchimp cfgFull contactAnnLee (NetResult.resp 200 false)).2 =
      some ⟨"ann@x.com", "Ann", "", "https://linkedin.com/in/ann"⟩ ∧
    contactAnnLee.last_name = some "Lee" ∧ ("" : String) ≠ "Lee" := by decide

/-- C9 amended: the posted request carries the contact's email and URL;
the first-name field is `firstName` when present and non-empty,
otherwise the first whitespace token of `name`; the last-name field is
the empty string whenever `name` has at most one token, and otherwise
`lastName` when present and non-empty, else the remaining tokens of
`name` joined by single spaces. -/
theorem mailchimp_merge_fields (cfg : Config) (c : Contact) (net : NetResult)
    (hcfg : mailchimpConfigured cfg = true) (hname : pySplit c.name ≠ []) :
    ∃ req, (add_to_mailchimp cfg c net).2 = some req ∧
      req.email_address = c.email ∧ req.linkedin = c.linkedin_url ∧
      req.fname = (match c.first_name with
        | some s => if s = "" then (pySplit c.name).headD "" else s
        | none => (pySplit c.name).headD "") ∧
      req.lname = (if 1 < (pySplit c.name).length then
          (match c.last_name with
           | some s => if s = "" then joinSp (pySplit c.name).tail else s
           | none => joinSp (pySplit c.name).tail)
        else "") := by
  have hhead : (pySplit c.name).head? = some ((pySplit c.name).headD "") := by
    cases hsp : pySplit c.name with
    | nil => exact absurd hsp hname
    | cons x xs => rfl
  have hf : mcFname c = some (match c.first_name with
      | some s => if s = "" then (pySplit c.name).headD "" else s
      | none => (pySplit c.name).headD "") := by
    unfold mcFname
    cases hfn : c.first_name with
    | none =>
      show (pySplit c.name).head? = some ((pySplit c.name).headD "")
      exact hhead
    | some s =>
      show (if s = "" then (pySplit c.name).head? else some s) =
        some (if s = "" then (pySplit c.name).headD "" else s)
      by_cases hs : s = ""
      · rw [if_pos hs, if_pos hs, hhead]
      · rw [if_neg hs, if_neg hs]
  have hbuild : buildMCReq c = some
      ⟨c.email,
       (match c.first_name with
        | some s => if s = "" then (pySplit c.name).headD "" else s
        | none => (pySplit c.name).headD ""),
       mcLname c, c.linkedin_url⟩ := by
    unfold buildMCReq
    rw [hf]
    rfl
  refine ⟨⟨c.email,
    (match c.first_name with
     | some s => if s = "" then (pySplit c.name).headD "" else s
     | none => (pySplit c.name).headD ""),
    mcLname c, c.linkedin_url⟩, ?_, rfl, rfl, rfl, rfl⟩
  unfold add_to_mailchimp
  rw [if_neg (by simp [hcfg]), hbuild]
  cases net <;> rfl

/-- Witness for the amended C9: a request is actually posted for a
concrete configured adapter and contact. -/
theorem mailchimp_merge_fields_witness :
    (add_to_mailchimp cfgFull contactAnn (NetResult.resp 200 false)).2.isSome = true := by
  obtain ⟨req, hreq, -, -, -, -⟩ :=
    mailchimp_merge_fields cfgFull contactAnn (NetResult.resp 200 false)
      (by decide) (by decide)
  rw [hreq]
  rfl

end CsvAgent
